import Mathlib

/-!
Verification of the NTP configuration module `pyanaconda/ntp.py`.

The config transform works line by line; we model a file as a `List String`
of lines without their trailing newline characters.  The directive regex
`^\s*(server|pool)\s*([-a-zA-Z.0-9]+)\s?([a-zA-Z0-9\s]*)$` is embedded as a
deterministic matching function: for this particular pattern the greedy
leftmost semantics of Python's engine never needs backtracking, because
the whitespace runs, the hostname character class and the option character
class are positioned so that shrinking an earlier greedy group can never
turn a failing tail into a matching one (any character the hostname group
could give back that the option class accepts leaves the offending
character in place).  A trailing newline on a line is absorbed by the
final `\s`-containing class and then discarded by `str.split`, so the
newline-free line model is faithful.

External collaborators (file I/O, `ntplib`, `isys.set_system_time`,
`threadMgr`, the constants module) are modeled as explicit inputs,
event traces, and a name registry, following the spec's collaborator
contracts.
-/

/-- ASCII whitespace, modeling the regex class `\s` and `str.split()`
(codes: space 32, tab 9, newline 10, carriage return 13, vertical tab 11,
form feed 12). -/
def isSpc (c : Char) : Bool :=
  decide (c.toNat = 32 ∨ c.toNat = 9 ∨ c.toNat = 10 ∨ c.toNat = 13 ∨
    c.toNat = 11 ∨ c.toNat = 12)

/-- The hostname character class `[-a-zA-Z.0-9]`
(codes: 45 is the hyphen, 46 the dot, 65-90 A-Z, 97-122 a-z, 48-57 digits). -/
def isHostChar (c : Char) : Bool :=
  decide (c.toNat = 45 ∨ c.toNat = 46 ∨ (65 ≤ c.toNat ∧ c.toNat ≤ 90) ∨
    (97 ≤ c.toNat ∧ c.toNat ≤ 122) ∨ (48 ≤ c.toNat ∧ c.toNat ≤ 57))

/-- The options-region character class `[a-zA-Z0-9\s]`. -/
def isOptChar (c : Char) : Bool :=
  decide ((65 ≤ c.toNat ∧ c.toNat ≤ 90) ∨ (97 ≤ c.toNat ∧ c.toNat ≤ 122) ∨
    (48 ≤ c.toNat ∧ c.toNat ≤ 57)) || isSpc c

/-- Lower-case letters and digits; used to describe well-formed arguments of
argument-taking options such as `minpoll 4`. -/
def isArgChar (c : Char) : Bool :=
  decide ((97 ≤ c.toNat ∧ c.toNat ≤ 122) ∨ (48 ≤ c.toNat ∧ c.toNat ≤ 57))

/-- ASCII lower-casing of one character, modeling Python `str.lower` on the
ASCII text the regex groups can produce. -/
def asciiLower (c : Char) : Char :=
  if 65 ≤ c.toNat ∧ c.toNat ≤ 90 then Char.ofNat (c.toNat + 32) else c

/-- ASCII upper-casing of one character, modeling Python `str.upper`. -/
def asciiUpper (c : Char) : Char :=
  if 97 ≤ c.toNat ∧ c.toNat ≤ 122 then Char.ofNat (c.toNat - 32) else c

/-- Strip an expected literal token from the front of a character list;
`none` when the token is not there.  Used for the literal alternatives
`server` and `pool` of the directive regex. -/
def stripTok : List Char → List Char → Option (List Char)
  | [], cs => some cs
  | _ :: _, [] => none
  | p :: ps, c :: cs => if p = c then stripTok ps cs else none

/-- Accumulator worker for `splitWs`. -/
def splitWsAux : List Char → List Char → List String
  | [], acc => if acc.isEmpty then [] else [String.mk acc.reverse]
  | c :: cs, acc =>
    if isSpc c then
      if acc.isEmpty then splitWsAux cs []
      else String.mk acc.reverse :: splitWsAux cs []
    else splitWsAux cs (c :: acc)

/-- Python `str.split()` (no separator argument): split on whitespace runs,
discarding empty pieces. -/
def splitWs (cs : List Char) : List String := splitWsAux cs []

/-- The constant `SRV_NOARG_OPTIONS` from ntp.py: server options that take no argument. -/
def SRV_NOARG_OPTIONS : List String :=
  ["burst", "iburst", "nts", "prefer", "require", "trust", "noselect", "xleave"]

/-- The constant `SRV_ARG_OPTIONS` from ntp.py: server options that consume one argument. -/
def SRV_ARG_OPTIONS : List String := ["key", "minpoll", "maxpoll"]

/-- The option-consuming loop of `get_servers_from_config` (ntp.py lines
156-171): walk the lower-cased split words left to right; a no-argument
option is kept alone, an argument option with a following word is kept
joined to it by one space (the following word is skipped), anything else
is dropped with only a debug log. -/
def parseOptions : List String → List String
  | [] => []
  | [w] => if w ∈ SRV_NOARG_OPTIONS then [w] else []
  | w :: a :: rest =>
    if w ∈ SRV_NOARG_OPTIONS then w :: parseOptions (a :: rest)
    else if w ∈ SRV_ARG_OPTIONS then (w ++ " " ++ a) :: parseOptions rest
    else parseOptions (a :: rest)

/-- The literal alternation `(server|pool)` of the directive regex: group
1 and the remainder of the line after it. -/
def regexTyped (s1 : List Char) : Option (List Char × List Char) :=
  match stripTok "server".data s1 with
  | some r => some ("server".data, r)
  | none =>
    match stripTok "pool".data s1 with
    | some r => some ("pool".data, r)
    | none => none

/-- The part of the directive regex after the type alternation:
`\s*([-a-zA-Z.0-9]+)\s?([a-zA-Z0-9\s]*)$` applied to the rest of the
line; `tok` is the already-matched group 1. -/
def regexTail (tok rest : List Char) :
    Option (List Char × List Char × List Char) :=
  let rest2 := rest.dropWhile isSpc
  let host := rest2.takeWhile isHostChar
  let rest3 := rest2.dropWhile isHostChar
  if host.isEmpty then none
  else if rest3.all isOptChar then
    match rest3 with
    | c :: t => if isSpc c then some (tok, host, t) else some (tok, host, rest3)
    | [] => some (tok, host, [])
  else none

/-- Matching `SRV_LINE_REGEXP` against one line: the regex
`^\s*(server|pool)\s*([-a-zA-Z.0-9]+)\s?([a-zA-Z0-9\s]*)$` as a
deterministic function returning the three groups (type token, hostname,
options region).  See the header comment for why no backtracking is
needed for this pattern. -/
def regexMatchL (cs : List Char) : Option (List Char × List Char × List Char) :=
  match regexTyped (cs.dropWhile isSpc) with
  | none => none
  | some (tok, rest) => regexTail tok rest

/-- The structure `TimeSourceData` (the external time-source data): type string
(`"SERVER"` or `"POOL"` in well-formed data), hostname, ordered option
list. -/
structure TimeSourceData where
  type : String
  hostname : String
  options : List String
deriving DecidableEq

/-- Parsing of one configuration line, the per-line body of
`get_servers_from_config` (ntp.py lines 143-173): regex match, type from
group 1 upper-cased, hostname from group 2, options from the lower-cased
split of group 3. -/
def parseLine (line : String) : Option TimeSourceData :=
  match regexMatchL line.data with
  | none => none
  | some (tok, host, g3) =>
    some { type := String.mk (tok.map asciiUpper),
           hostname := String.mk host,
           options := parseOptions (splitWs (g3.map asciiLower)) }

/-- Whether `SRV_LINE_REGEXP` matches the line (used both for extraction
and for dropping directive lines on rewrite). -/
def matchesLine (line : String) : Bool := (regexMatchL line.data).isSome

/-- Join word lists with single spaces, modeling Python `" ".join`. -/
def joinSp : List (List Char) → List Char
  | [] => []
  | [w] => w
  | w :: x :: ws => w ++ ' ' :: joinSp (x :: ws)

/-- One rendered directive line of `save_servers_to_config` (ntp.py lines
221-224): lower-cased type, hostname and the option strings joined by
spaces. -/
def serverLine (server : TimeSourceData) : String :=
  String.mk (joinSp (server.type.data.map asciiLower ::
    server.hostname.data :: server.options.map String.data))

/-- The heading comment written by `save_servers_to_config` (without the
trailing newline of the line model). -/
def heading : String := "# These servers were defined in the installation:"

/-- The text transform of `save_servers_to_config` (ntp.py lines 214-230)
on the line level: heading, one directive line per server, one blank
line, then every old line that neither matches the directive regex nor
equals the heading, verbatim and in order. -/
def save_servers_to_config (servers : List TimeSourceData)
    (oldLines : List String) : List String :=
  heading :: servers.map serverLine ++ [""] ++
    oldLines.filter (fun line => !matchesLine line && line != heading)

/-- The extraction loop of `get_servers_from_config` over the lines of a
readable file: collect the parse of every matching line. -/
def get_servers_from_lines (lines : List String) : List TimeSourceData :=
  lines.filterMap parseLine

/-- The function `get_servers_from_config` (ntp.py lines 131-177) with the file
collaborator made explicit: the `contents` argument is either the lines
of the file or the `IOError.strerror` of a failed open/read, in which
case the `NTPconfigError` message is raised with the path and the reason
interpolated. -/
def get_servers_from_config (conf_file_path : String)
    (contents : Except String (List String)) :
    Except String (List TimeSourceData) :=
  match contents with
  | .error strerror =>
    .error ("Cannot open config file " ++ conf_file_path ++
      " for reading (" ++ strerror ++ ").")
  | .ok lines => .ok (get_servers_from_lines lines)

/-- Iterated rewriting: feed each render's output to the next render as
its source text. -/
def renderIter (servers : List TimeSourceData) (src : List String) :
    Nat → List String
  | 0 => src
  | n + 1 => save_servers_to_config servers (renderIter servers src n)

/-- A well-formed option string: either a recognized no-argument option,
or a recognized argument option joined by a single space to a non-empty
lower-case alphanumeric argument. -/
def wellFormedOpt (o : String) : Bool :=
  decide (o ∈ SRV_NOARG_OPTIONS) ||
  SRV_ARG_OPTIONS.any (fun k =>
    match stripTok (k.data ++ [' ']) o.data with
    | some v => !v.isEmpty && v.all isArgChar
    | none => false)

/-- A well-formed time source per the data model: type is the `SERVER` or
`POOL` enum value, the hostname is a non-empty word of hostname
characters, and every option is well formed. -/
def wellFormed (s : TimeSourceData) : Bool :=
  (decide (s.type = "SERVER") || decide (s.type = "POOL")) &&
  !s.hostname.data.isEmpty && s.hostname.data.all isHostChar &&
  s.options.all wellFormedOpt

/-- Observable actions of the one-time synchronization helper: the NTP
request to a hostname, the call to the clock-set collaborator
`isys.set_system_time`, and the completion callback. -/
inductive SyncEvent where
  | request (hostname : String)
  | setSystemTime (t : Int)
  | callback (success : Bool)
deriving DecidableEq

/-- Outcome of the single `ntplib` request made by `_one_time_sync`:
a response carrying the transmit timestamp (a float, modeled as a
rational), an `ntplib.NTPException`, or a name-resolution failure
`socket.gaierror`. -/
inductive NTPResponse where
  | ok (tx_time : ℚ)
  | ntpException
  | gaierror
deriving DecidableEq

/-- Python `int()` on a float value: truncation toward zero. -/
def pyInt (q : ℚ) : Int :=
  if 0 ≤ q.num then Int.ofNat (q.num.toNat / q.den)
  else -Int.ofNat ((-q.num).toNat / q.den)

/-- The function `_one_time_sync` (ntp.py lines 246-273) with the collaborators made
explicit: the request outcome is an input, and the side effects are
returned as an ordered event trace next to the boolean result.  On a
response the clock is set to the truncated transmit timestamp and the
result is true; on `NTPException` or `gaierror` the result is false with
no clock set; a supplied callback is invoked last with the result. -/
def _one_time_sync (server : TimeSourceData) (has_callback : Bool)
    (response : NTPResponse) : Bool × List SyncEvent :=
  match response with
  | .ok tx =>
    (true, [SyncEvent.request server.hostname,
            SyncEvent.setSystemTime (pyInt tx)] ++
      (if has_callback then [SyncEvent.callback true] else []))
  | .ntpException =>
    (false, [SyncEvent.request server.hostname] ++
      (if has_callback then [SyncEvent.callback false] else []))
  | .gaierror =>
    (false, [SyncEvent.request server.hostname] ++
      (if has_callback then [SyncEvent.callback false] else []))

/-- Discriminator for request events. -/
def isRequestEv : SyncEvent → Bool
  | .request _ => true
  | _ => false

/-- Discriminator for clock-set events. -/
def isSetTimeEv : SyncEvent → Bool
  | .setSystemTime _ => true
  | _ => false

/-- Discriminator for callback events. -/
def isCallbackEv : SyncEvent → Bool
  | .callback _ => true
  | _ => false

/-- Modelled from the spec: the fixed task-name stem
`THREAD_SYNC_TIME_BASENAME` imported from `pyanaconda.core.constants`,
which is not under src/.  The spec only requires it to be a fixed string
from which the task name is derived deterministically; its exact text is
immaterial to the deduplication behavior. -/
def THREAD_SYNC_TIME_BASENAME : String := "AnaSyncTime"

/-- A background task registered by `one_time_sync_async`: its registry
name and the arguments of the `_one_time_sync` run it performs. -/
structure SyncTask where
  name : String
  server : TimeSourceData
  has_callback : Bool
deriving DecidableEq

/-- The function `one_time_sync_async` (ntp.py lines 276-299) with the thread-registry
collaborator modeled as the list of registered running task names: the
task name is the fixed stem, an underscore and the hostname; if that name
is already registered the call returns with no new task and no other
effect, otherwise the name is registered and one task is started. -/
def one_time_sync_async (running : List String) (server : TimeSourceData)
    (has_callback : Bool) : List String × List SyncTask :=
  let thread_name := THREAD_SYNC_TIME_BASENAME ++ "_" ++ server.hostname
  if thread_name ∈ running then (running, [])
  else (thread_name :: running, [⟨thread_name, server, has_callback⟩])

/-- Modelled from the spec: the three status constants `NTP_SERVER_QUERY`
(unknown/being queried), `NTP_SERVER_OK` (reachable) and `NTP_SERVER_NOK`
(unreachable) imported from `pyanaconda.core.constants`, which is not
under src/.  The code only requires them to be three distinct values. -/
inductive NTPServerStatus where
  | NTP_SERVER_QUERY
  | NTP_SERVER_OK
  | NTP_SERVER_NOK
deriving DecidableEq

/-- A probe task spawned by `check_status`: the probed hostname and
whether the NTS secure mode is used for the probe. -/
structure ProbeRequest where
  hostname : String
  nts_enabled : Bool
deriving DecidableEq

/-- Python dict read with a default, `dict.get(k, d)`. -/
def dictGet (m : List (String × NTPServerStatus)) (k : String)
    (d : NTPServerStatus) : NTPServerStatus :=
  match m.find? (fun p => p.1 == k) with
  | some p => p.2
  | none => d

/-- Python dict write, `m[k] = v`, on the association-list model. -/
def dictSet (m : List (String × NTPServerStatus)) (k : String)
    (v : NTPServerStatus) : List (String × NTPServerStatus) :=
  (k, v) :: m.filter (fun p => !(p.1 == k))

/-- The class `NTPServerStatusCache` (ntp.py lines 302-368): the per-hostname status
dictionary. -/
structure NTPServerStatusCache where
  _cache : List (String × NTPServerStatus)
deriving DecidableEq

/-- The `__init__` of the cache: an empty dictionary. -/
def NTPServerStatusCache.init : NTPServerStatusCache := ⟨[]⟩

/-- The method `get_status`: a read of the dictionary defaulting to
`NTP_SERVER_QUERY`; it returns the status together with the (unchanged)
cache and the (empty) list of probe tasks it spawns. -/
def NTPServerStatusCache.get_status (c : NTPServerStatusCache)
    (server : TimeSourceData) :
    NTPServerStatus × NTPServerStatusCache × List ProbeRequest :=
  (dictGet c._cache server.hostname NTPServerStatus.NTP_SERVER_QUERY, c, [])

/-- The method `_set_status`: store a status for a hostname. -/
def NTPServerStatusCache._set_status (c : NTPServerStatusCache)
    (hostname : String) (status : NTPServerStatus) : NTPServerStatusCache :=
  ⟨dictSet c._cache hostname status⟩

/-- The method `check_status`: synchronously reset the hostname's status to
`NTP_SERVER_QUERY`, then spawn one probe task for the hostname with NTS
enabled exactly when the option list contains the `nts` flag. -/
def NTPServerStatusCache.check_status (c : NTPServerStatusCache)
    (server : TimeSourceData) : NTPServerStatusCache × List ProbeRequest :=
  let hostname := server.hostname
  let nts_enabled := decide ("nts" ∈ server.options)
  (c._set_status hostname NTPServerStatus.NTP_SERVER_QUERY,
    [⟨hostname, nts_enabled⟩])

/-- The method `_check_status`, the body of the probe task, with the probe
collaborator `ntp_server_working` made explicit through its boolean
result: store `NTP_SERVER_OK` on success and `NTP_SERVER_NOK` otherwise. -/
def NTPServerStatusCache._check_status (c : NTPServerStatusCache)
    (hostname : String) (result : Bool) : NTPServerStatusCache :=
  if result then c._set_status hostname NTPServerStatus.NTP_SERVER_OK
  else c._set_status hostname NTPServerStatus.NTP_SERVER_NOK

/-- A hostname character is not whitespace. -/
theorem hostChar_not_spc (c : Char) (h : isHostChar c = true) : isSpc c = false := by
  simp only [isHostChar, decide_eq_true_eq] at h
  simp only [isSpc, decide_eq_false_iff_not]
  omega

/-- Argument characters are not whitespace, lie in the options class, and
are fixed by lower-casing. -/
theorem argChar_props (c : Char) (h : isArgChar c = true) :
    isSpc c = false ∧ isOptChar c = true ∧ asciiLower c = c := by
  simp only [isArgChar, decide_eq_true_eq] at h
  refine ⟨?_, ?_, ?_⟩
  · simp only [isSpc, decide_eq_false_iff_not]; omega
  · simp only [isOptChar, Bool.or_eq_true, decide_eq_true_eq, isSpc]; omega
  · simp only [asciiLower]
    rw [if_neg (by omega)]

/-- Whitespace characters are in the options class. -/
theorem spc_optChar (c : Char) (h : isSpc c = true) : isOptChar c = true := by
  simp [isOptChar, h]

/-- A non-empty list is not `isEmpty`. -/
theorem isEmpty_false_of_ne {α : Type} (l : List α) (h : l ≠ []) :
    l.isEmpty = false := by
  cases l with
  | nil => exact absurd rfl h
  | cons a t => rfl

/-- Taking `takeWhile` over an all-satisfying list is the list itself. -/
theorem takeWhile_all {α : Type} (p : α → Bool) :
    ∀ (l : List α), (∀ c ∈ l, p c = true) → l.takeWhile p = l := by
  intro l
  induction l with
  | nil => intro _; rfl
  | cons a t ih =>
    intro h
    rw [List.takeWhile_cons, if_pos (h a (by simp))]
    rw [ih (fun c hc => h c (by simp [hc]))]

/-- Taking `dropWhile` over an all-satisfying list is empty. -/
theorem dropWhile_all {α : Type} (p : α → Bool) :
    ∀ (l : List α), (∀ c ∈ l, p c = true) → l.dropWhile p = [] := by
  intro l
  induction l with
  | nil => intro _; rfl
  | cons a t ih =>
    intro h
    rw [List.dropWhile_cons, if_pos (h a (by simp))]
    exact ih (fun c hc => h c (by simp [hc]))

/-- The scan `dropWhile` stops at a failing head. -/
theorem dropWhile_cons_false {α : Type} (p : α → Bool) (c : α) (t : List α)
    (h : p c = false) : (c :: t).dropWhile p = c :: t := by
  rw [List.dropWhile_cons, if_neg (by simp [h])]

/-- Taking `takeWhile` over an all-satisfying block followed by a failing element
keeps exactly the block. -/
theorem takeWhile_append_stop {α : Type} (p : α → Bool) (a : List α) (b0 : α)
    (b : List α) (ha : ∀ c ∈ a, p c = true) (hb : p b0 = false) :
    (a ++ b0 :: b).takeWhile p = a := by
  induction a with
  | nil => simpa [List.takeWhile_cons] using hb
  | cons x t ih =>
    rw [List.cons_append, List.takeWhile_cons, if_pos (ha x (by simp))]
    rw [ih (fun c hc => ha c (by simp [hc]))]

/-- Taking `dropWhile` over an all-satisfying block followed by a failing element
drops exactly the block. -/
theorem dropWhile_append_stop {α : Type} (p : α → Bool) (a : List α) (b0 : α)
    (b : List α) (ha : ∀ c ∈ a, p c = true) (hb : p b0 = false) :
    (a ++ b0 :: b).dropWhile p = b0 :: b := by
  induction a with
  | nil => rw [List.nil_append, dropWhile_cons_false p b0 b hb]
  | cons x t ih =>
    rw [List.cons_append, List.dropWhile_cons, if_pos (ha x (by simp))]
    exact ih (fun c hc => ha c (by simp [hc]))

/-- Stripping a token from itself followed by a remainder succeeds. -/
theorem stripTok_append_self : ∀ (p r : List Char), stripTok p (p ++ r) = some r := by
  intro p
  induction p with
  | nil => intro r; rfl
  | cons c ps ih => intro r; simp [stripTok, ih]

/-- A successful strip decomposes the input. -/
theorem stripTok_eq_some : ∀ (p cs r : List Char),
    stripTok p cs = some r → cs = p ++ r := by
  intro p
  induction p with
  | nil =>
    intro cs r h
    simp only [stripTok, Option.some.injEq] at h
    simp [h]
  | cons c ps ih =>
    intro cs r h
    cases cs with
    | nil => simp [stripTok] at h
    | cons d ds =>
      simp only [stripTok] at h
      by_cases hcd : c = d
      · rw [if_pos hcd] at h
        subst hcd
        rw [ih ds r h]
        rfl
      · rw [if_neg hcd] at h
        exact absurd h (by simp)

/-- Two strings with the same character data are equal. -/
theorem string_eq_of_data {a b : String} (h : a.data = b.data) : a = b := by
  cases a with
  | mk da =>
    cases b with
    | mk db => exact congrArg String.mk h

/-- A run of non-whitespace characters is carried into the accumulator by
the splitter. -/
theorem splitWsAux_word (w : List Char) (hw : ∀ c ∈ w, isSpc c = false) :
    ∀ (rest acc : List Char),
      splitWsAux (w ++ rest) acc = splitWsAux rest (w.reverse ++ acc) := by
  induction w with
  | nil => intro rest acc; simp
  | cons c t ih =>
    intro rest acc
    have hc : isSpc c = false := hw c (by simp)
    rw [List.cons_append]
    show splitWsAux (c :: (t ++ rest)) acc = _
    rw [splitWsAux, if_neg (by simp [hc])]
    rw [ih (fun x hx => hw x (by simp [hx])) rest (c :: acc)]
    congr 1
    simp

/-- Splitting a single word followed by a space and a remainder yields the
word and the split of the remainder. -/
theorem splitWs_word_sep (w : List Char) (hne : w ≠ [])
    (hw : ∀ c ∈ w, isSpc c = false) (J : List Char) :
    splitWs (w ++ ' ' :: J) = String.mk w :: splitWs J := by
  unfold splitWs
  rw [splitWsAux_word w hw (' ' :: J) []]
  rw [List.append_nil]
  have hrev : w.reverse ≠ [] := by
    intro h
    exact hne (by simpa using congrArg List.reverse h)
  rw [splitWsAux, if_pos (by decide), if_neg (by simp [isEmpty_false_of_ne _ hrev])]
  rw [List.reverse_reverse]

/-- Splitting a single non-empty word yields just that word. -/
theorem splitWs_single (w : List Char) (hne : w ≠ [])
    (hw : ∀ c ∈ w, isSpc c = false) : splitWs w = [String.mk w] := by
  unfold splitWs
  have h0 := splitWsAux_word w hw [] []
  rw [List.append_nil] at h0
  rw [h0, List.append_nil]
  have hrev : w.reverse ≠ [] := by
    intro h
    exact hne (by simpa using congrArg List.reverse h)
  rw [splitWsAux, if_neg (by simp [isEmpty_false_of_ne _ hrev])]
  rw [List.reverse_reverse]

/-- Unfolding of the space join at a two-or-more-element list. -/
theorem joinSp_cons_cons (a b : List Char) (rest : List (List Char)) :
    joinSp (a :: b :: rest) = a ++ ' ' :: joinSp (b :: rest) := rfl

/-- A head word that itself contains one separating space joins the same
way as the two words it is made of. -/
theorem joinSp_kv (k v : List Char) (rest : List (List Char)) :
    joinSp ((k ++ ' ' :: v) :: rest) = k ++ ' ' :: joinSp (v :: rest) := by
  cases rest with
  | nil => rfl
  | cons r rs =>
    show (k ++ ' ' :: v) ++ ' ' :: joinSp (r :: rs) =
      k ++ ' ' :: (v ++ ' ' :: joinSp (r :: rs))
    simp

/-- The alternation takes the `server` branch on a line whose remainder
starts with the literal token. -/
theorem regexTyped_server (r : List Char) :
    regexTyped ("server".data ++ r) = some ("server".data, r) := by
  unfold regexTyped
  rw [stripTok_append_self]

/-- The alternation takes the `pool` branch when the line starts with
`pool`; the `server` branch fails on the first character. -/
theorem regexTyped_pool (r : List Char) :
    regexTyped ("pool".data ++ r) = some ("pool".data, r) := by
  unfold regexTyped
  have h1 : stripTok "server".data ("pool".data ++ r) = none := by
    rw [show ("pool".data ++ r : List Char) = 'p' :: ("ool".data ++ r) from rfl]
    rw [show ("server".data : List Char) = 's' :: "erver".data from rfl]
    simp [stripTok]
  rw [h1, stripTok_append_self]

/-- The tail of the regex on a single space, a hostname word, and a
well-shaped options region. -/
theorem regexTail_directive (tok hd rest3 : List Char) (hne : hd ≠ [])
    (hh : ∀ c ∈ hd, isHostChar c = true)
    (hrest : rest3 = [] ∨ ∃ J, rest3 = ' ' :: J ∧ ∀ c ∈ J, isOptChar c = true) :
    regexTail tok (' ' :: (hd ++ rest3)) = some (tok, hd, rest3.tail) := by
  obtain ⟨c0, hd', rfl⟩ : ∃ c0 hd', hd = c0 :: hd' := by
    cases hd with
    | nil => exact absurd rfl hne
    | cons a t => exact ⟨a, t, rfl⟩
  have hc0s : isSpc c0 = false := hostChar_not_spc c0 (hh c0 (by simp))
  have hdw2 : (' ' :: ((c0 :: hd') ++ rest3) : List Char).dropWhile isSpc
      = (c0 :: hd') ++ rest3 := by
    rw [List.dropWhile_cons, if_pos (by decide), List.cons_append]
    exact dropWhile_cons_false _ _ _ hc0s
  have htw : ((c0 :: hd') ++ rest3).takeWhile isHostChar = c0 :: hd' := by
    rcases hrest with rfl | ⟨J, rfl, hJ⟩
    · rw [List.append_nil]
      exact takeWhile_all _ _ hh
    · exact takeWhile_append_stop _ _ _ _ hh (by decide)
  have hdw3 : ((c0 :: hd') ++ rest3).dropWhile isHostChar = rest3 := by
    rcases hrest with rfl | ⟨J, rfl, hJ⟩
    · rw [List.append_nil]
      exact dropWhile_all _ _ hh
    · exact dropWhile_append_stop _ _ _ _ hh (by decide)
  have hall : rest3.all isOptChar = true := by
    rcases hrest with rfl | ⟨J, rfl, hJ⟩
    · rfl
    · rw [List.all_cons]
      refine (Bool.and_eq_true ..).mpr ⟨by decide, ?_⟩
      rw [List.all_eq_true]
      exact hJ
  simp only [regexTail]
  rw [hdw2, htw, hdw3]
  rw [if_neg (by simp), if_pos hall]
  rcases hrest with rfl | ⟨J, rfl, hJ⟩
  · rfl
  · rfl

/-- The full regex on a rendered directive line shape. -/
theorem regexMatchL_directive (tok hd rest3 : List Char)
    (htok : tok = "server".data ∨ tok = "pool".data)
    (hne : hd ≠ []) (hh : ∀ c ∈ hd, isHostChar c = true)
    (hrest : rest3 = [] ∨ ∃ J, rest3 = ' ' :: J ∧ ∀ c ∈ J, isOptChar c = true) :
    regexMatchL (tok ++ ' ' :: (hd ++ rest3)) = some (tok, hd, rest3.tail) := by
  rcases htok with rfl | rfl
  · have hdw : ("server".data ++ ' ' :: (hd ++ rest3)).dropWhile isSpc
        = "server".data ++ ' ' :: (hd ++ rest3) := by
      rw [show ("server".data ++ ' ' :: (hd ++ rest3) : List Char)
        = 's' :: ("erver".data ++ ' ' :: (hd ++ rest3)) from rfl]
      exact dropWhile_cons_false _ _ _ (by decide)
    unfold regexMatchL
    rw [hdw, regexTyped_server]
    exact regexTail_directive _ _ _ hne hh hrest
  · have hdw : ("pool".data ++ ' ' :: (hd ++ rest3)).dropWhile isSpc
        = "pool".data ++ ' ' :: (hd ++ rest3) := by
      rw [show ("pool".data ++ ' ' :: (hd ++ rest3) : List Char)
        = 'p' :: ("ool".data ++ ' ' :: (hd ++ rest3)) from rfl]
      exact dropWhile_cons_false _ _ _ (by decide)
    unfold regexMatchL
    rw [hdw, regexTyped_pool]
    exact regexTail_directive _ _ _ hne hh hrest

/-- Character facts about the recognized no-argument options. -/
theorem noarg_props (o : String) (h : o ∈ SRV_NOARG_OPTIONS) :
    o.data ≠ [] ∧ ∀ c ∈ o.data, isSpc c = false ∧ isOptChar c = true ∧
      asciiLower c = c := by
  simp only [SRV_NOARG_OPTIONS, List.mem_cons, List.not_mem_nil, or_false] at h
  rcases h with rfl | rfl | rfl | rfl | rfl | rfl | rfl | rfl
  all_goals decide

/-- Character facts about the recognized argument options, and their
absence from the no-argument set. -/
theorem arg_props (k : String) (h : k ∈ SRV_ARG_OPTIONS) :
    k.data ≠ [] ∧ (∀ c ∈ k.data, isSpc c = false ∧ isOptChar c = true ∧
      asciiLower c = c) ∧ k ∉ SRV_NOARG_OPTIONS := by
  simp only [SRV_ARG_OPTIONS, List.mem_cons, List.not_mem_nil, or_false] at h
  rcases h with rfl | rfl | rfl
  all_goals decide

/-- Shape of a well-formed option: either a recognized flag, or an
argument option, one space and a non-empty lower-case alphanumeric
argument. -/
theorem wellFormedOpt_cases (o : String) (h : wellFormedOpt o = true) :
    o ∈ SRV_NOARG_OPTIONS ∨
    ∃ k v, k ∈ SRV_ARG_OPTIONS ∧ v ≠ [] ∧ (∀ c ∈ v, isArgChar c = true) ∧
      o.data = k.data ++ ' ' :: v := by
  unfold wellFormedOpt at h
  rw [Bool.or_eq_true] at h
  rcases h with h | h
  · exact Or.inl (of_decide_eq_true h)
  · right
    rw [List.any_eq_true] at h
    rcases h with ⟨k, hk, hck⟩
    refine ⟨k, ?_⟩
    cases heq : stripTok (k.data ++ [' ']) o.data with
    | none => rw [heq] at hck; simp at hck
    | some v =>
      rw [heq] at hck
      rw [Bool.and_eq_true] at hck
      have hod := stripTok_eq_some _ _ _ heq
      refine ⟨v, hk, ?_, ?_, ?_⟩
      · intro hv
        rw [hv] at hck
        simp at hck
      · intro c hc
        have := hck.2
        rw [List.all_eq_true] at this
        exact this c hc
      · simpa [List.append_assoc] using hod

/-- A lower-casing that fixes every character fixes the list. -/
theorem map_asciiLower_id (l : List Char) (h : ∀ c ∈ l, asciiLower c = c) :
    l.map asciiLower = l := by
  induction l with
  | nil => rfl
  | cons c t ih =>
    rw [List.map_cons, h c (by simp), ih (fun x hx => h x (by simp [hx]))]

/-- Characters of a well-formed option are in the regex options class and
are fixed by lower-casing. -/
theorem wfOpt_chars (o : String) (h : wellFormedOpt o = true) :
    o.data ≠ [] ∧ ∀ c ∈ o.data, isOptChar c = true ∧ asciiLower c = c := by
  rcases wellFormedOpt_cases o h with hn | ⟨k, v, hk, hvne, hvc, hod⟩
  · rcases noarg_props o hn with ⟨hne, hc⟩
    exact ⟨hne, fun c hcm => ⟨(hc c hcm).2.1, (hc c hcm).2.2⟩⟩
  · rcases arg_props k hk with ⟨hkne, hkc, _⟩
    constructor
    · rw [hod]
      intro hcontra
      exact hkne (List.append_eq_nil.mp hcontra).1
    · intro c hcm
      rw [hod] at hcm
      rcases List.mem_append.mp hcm with hck | hcv
      · exact ⟨(hkc c hck).2.1, (hkc c hck).2.2⟩
      · rcases List.mem_cons.mp hcv with rfl | hcv2
        · exact ⟨by decide, by decide⟩
        · rcases argChar_props c (hvc c hcv2) with ⟨_, h2, h3⟩
          exact ⟨h2, h3⟩

/-- Words of a well-formed option contain no whitespace except the single
joining space, so the whole space join of an option list stays inside the
options character class and is fixed by lower-casing. -/
theorem joinSp_opts_chars :
    ∀ (opts : List String), (∀ o ∈ opts, wellFormedOpt o = true) →
    ∀ c ∈ joinSp (opts.map String.data), isOptChar c = true ∧ asciiLower c = c := by
  intro opts
  induction opts with
  | nil => intro _ c hc; simp [joinSp] at hc
  | cons o os ih =>
    intro h c hc
    have ho := wfOpt_chars o (h o (by simp))
    cases os with
    | nil =>
      rw [show ((o :: []).map String.data) = [o.data] from rfl] at hc
      rw [show joinSp [o.data] = o.data from rfl] at hc
      exact ho.2 c hc
    | cons o2 os2 =>
      rw [List.map_cons, List.map_cons, joinSp_cons_cons] at hc
      rcases List.mem_append.mp hc with hc1 | hc2
      · exact ho.2 c hc1
      · rcases List.mem_cons.mp hc2 with rfl | hc3
        · exact ⟨by decide, by decide⟩
        · exact ih (fun x hx => h x (by simp [hx])) c (by rw [List.map_cons]; exact hc3)

/-- Splitting the space join of a leading non-empty whitespace-free word
and a joined remainder peels off exactly that word. -/
theorem splitWs_joinSp_cons (w : List Char) (hne : w ≠ [])
    (hw : ∀ c ∈ w, isSpc c = false) (rest : List (List Char)) :
    splitWs (joinSp (w :: rest)) = String.mk w :: splitWs (joinSp rest) := by
  cases rest with
  | nil =>
    rw [show joinSp [w] = w from rfl, show joinSp ([] : List (List Char)) = [] from rfl]
    rw [splitWs_single w hne hw]
    rfl
  | cons r rs =>
    rw [joinSp_cons_cons, splitWs_word_sep w hne hw]

/-- The option loop inverts the rendering of a well-formed option list:
splitting the space-joined options and re-consuming them recovers the
list. -/
theorem opts_roundtrip :
    ∀ (opts : List String), (∀ o ∈ opts, wellFormedOpt o = true) →
    parseOptions (splitWs (joinSp (opts.map String.data))) = opts := by
  intro opts
  induction opts with
  | nil => intro _; rfl
  | cons o os ih =>
    intro h
    have ihos := ih (fun x hx => h x (by simp [hx]))
    rcases wellFormedOpt_cases o (h o (by simp)) with hn | ⟨k, v, hk, hvne, hvc, hod⟩
    · -- no-argument option: one word
      rcases noarg_props o hn with ⟨hone, hoc⟩
      rw [List.map_cons]
      rw [splitWs_joinSp_cons o.data hone (fun c hc => (hoc c hc).1)]
      rw [show String.mk o.data = o from rfl]
      cases hws : splitWs (joinSp (os.map String.data)) with
      | nil =>
        rw [hws] at ihos
        have hos : os = [] := ihos.symm
        rw [show parseOptions [o] = if o ∈ SRV_NOARG_OPTIONS then [o] else [] from rfl]
        rw [if_pos hn, hos]
      | cons a rest =>
        rw [hws] at ihos
        show (if o ∈ SRV_NOARG_OPTIONS then o :: parseOptions (a :: rest)
          else if o ∈ SRV_ARG_OPTIONS then (o ++ " " ++ a) :: parseOptions rest
          else parseOptions (a :: rest)) = o :: os
        rw [if_pos hn, ihos]
    · -- argument option: two words, the second consumed as the argument
      have hvspc : ∀ c ∈ v, isSpc c = false := fun c hc => (argChar_props c (hvc c hc)).1
      rcases arg_props k hk with ⟨hkne, hkc, hknoarg⟩
      rw [List.map_cons, hod]
      rw [joinSp_kv]
      rw [show (k.data ++ ' ' :: joinSp (v :: os.map String.data) : List Char)
        = k.data ++ ' ' :: joinSp (v :: os.map String.data) from rfl]
      rw [splitWs_word_sep k.data hkne (fun c hc => (hkc c hc).1)]
      rw [splitWs_joinSp_cons v hvne hvspc]
      rw [show String.mk k.data = k from rfl]
      have hks : (k ++ " " ++ String.mk v) = o := by
        apply string_eq_of_data
        rw [hod]
        show (k ++ " ").data ++ v = k.data ++ ' ' :: v
        rw [show (k ++ " ").data = k.data ++ [' '] from rfl]
        simp
      show (if k ∈ SRV_NOARG_OPTIONS then
          k :: parseOptions (String.mk v :: splitWs (joinSp (os.map String.data)))
        else if k ∈ SRV_ARG_OPTIONS then
          (k ++ " " ++ String.mk v) :: parseOptions (splitWs (joinSp (os.map String.data)))
        else parseOptions (String.mk v :: splitWs (joinSp (os.map String.data)))) = o :: os
      rw [if_neg hknoarg, if_pos hk, hks, ihos]

/-- A line the regex does not match parses to nothing. -/
theorem parseLine_none_of_not_matches (l : String) (h : matchesLine l = false) :
    parseLine l = none := by
  unfold matchesLine at h
  unfold parseLine
  cases hm : regexMatchL l.data with
  | none => rfl
  | some v => rw [hm] at h; simp at h

/-- A line that parses to a server is a regex match. -/
theorem matchesLine_of_parseLine (l : String) (ts : TimeSourceData)
    (h : parseLine l = some ts) : matchesLine l = true := by
  unfold parseLine at h
  unfold matchesLine
  cases hm : regexMatchL l.data with
  | none => rw [hm] at h; exact absurd h (by simp)
  | some v => rfl

/-- Round trip on one directive: parsing the rendered line of a
well-formed time source recovers it exactly. -/
theorem parseLine_serverLine (s : TimeSourceData) (hwf : wellFormed s = true) :
    parseLine (serverLine s) = some s := by
  unfold wellFormed at hwf
  simp only [Bool.and_eq_true] at hwf
  obtain ⟨⟨⟨htype, hne'⟩, hhost⟩, hopts⟩ := hwf
  simp only [Bool.or_eq_true, decide_eq_true_eq] at htype
  have hne : s.hostname.data ≠ [] := by
    intro hcontra
    rw [hcontra] at hne'
    simp at hne'
  have hhostc : ∀ c ∈ s.hostname.data, isHostChar c = true := by
    rw [List.all_eq_true] at hhost
    exact hhost
  have hoptsc : ∀ o ∈ s.options, wellFormedOpt o = true := by
    rw [List.all_eq_true] at hopts
    exact hopts
  have htok : s.type.data.map asciiLower = "server".data ∨
      s.type.data.map asciiLower = "pool".data := by
    rcases htype with h | h
    · left; rw [h]; decide
    · right; rw [h]; decide
  have htokup : String.mk ((s.type.data.map asciiLower).map asciiUpper) = s.type := by
    rcases htype with h | h
    · rcases htok with h2 | h2
      · rw [h2, h]; decide
      · rw [h] at h2; exact absurd h2 (by decide)
    · rcases htok with h2 | h2
      · rw [h] at h2; exact absurd h2 (by decide)
      · rw [h2, h]; decide
  -- the rendered line in the shape the regex lemma expects
  cases hoc : s.options with
  | nil =>
    have hline : (serverLine s).data = s.type.data.map asciiLower ++
        ' ' :: (s.hostname.data ++ []) := by
      unfold serverLine
      rw [hoc]
      show joinSp (s.type.data.map asciiLower :: s.hostname.data :: []) = _
      rw [show joinSp (s.type.data.map asciiLower :: s.hostname.data :: [])
        = s.type.data.map asciiLower ++ ' ' :: s.hostname.data from rfl]
      rw [List.append_nil]
    unfold parseLine
    rw [hline, regexMatchL_directive _ _ _ htok hne hhostc (Or.inl rfl)]
    show some ⟨String.mk ((s.type.data.map asciiLower).map asciiUpper),
      String.mk s.hostname.data, parseOptions (splitWs (([] : List Char).map asciiLower))⟩
      = some s
    rw [htokup]
    rw [show String.mk s.hostname.data = s.hostname from rfl]
    rw [show parseOptions (splitWs (([] : List Char).map asciiLower)) = [] from rfl]
    rw [← hoc]
  | cons o os =>
    have hJopt : ∀ c ∈ joinSp ((o :: os).map String.data), isOptChar c = true := by
      intro c hc
      exact (joinSp_opts_chars (o :: os) (by rw [← hoc]; exact hoptsc) c hc).1
    have hJfix : (joinSp ((o :: os).map String.data)).map asciiLower
        = joinSp ((o :: os).map String.data) := by
      apply map_asciiLower_id
      intro c hc
      exact (joinSp_opts_chars (o :: os) (by rw [← hoc]; exact hoptsc) c hc).2
    have hline : (serverLine s).data = s.type.data.map asciiLower ++
        ' ' :: (s.hostname.data ++ ' ' :: joinSp ((o :: os).map String.data)) := by
      unfold serverLine
      rw [hoc]
      show joinSp (s.type.data.map asciiLower :: s.hostname.data ::
        (o :: os).map String.data) = _
      rw [joinSp_cons_cons]
      congr 1
    unfold parseLine
    rw [hline, regexMatchL_directive _ _ _ htok hne hhostc
      (Or.inr ⟨joinSp ((o :: os).map String.data), rfl, hJopt⟩)]
    show some ⟨String.mk ((s.type.data.map asciiLower).map asciiUpper),
      String.mk s.hostname.data,
      parseOptions (splitWs ((joinSp ((o :: os).map String.data)).map asciiLower))⟩
      = some s
    rw [htokup]
    rw [show String.mk s.hostname.data = s.hostname from rfl]
    rw [hJfix]
    rw [opts_roundtrip (o :: os) (by rw [← hoc]; exact hoptsc)]
    rw [← hoc]

/-- Rendered directive lines of well-formed servers all parse back to the
servers, in order. -/
theorem filterMap_parse_render (servers : List TimeSourceData)
    (hwf : ∀ s ∈ servers, wellFormed s = true) :
    List.filterMap parseLine (servers.map serverLine) = servers := by
  induction servers with
  | nil => rfl
  | cons s ss ih =>
    rw [List.map_cons]
    rw [List.filterMap_cons_some (parseLine_serverLine s (hwf s (by simp)))]
    rw [ih (fun x hx => hwf x (by simp [hx]))]

/-- Lines that all fail the regex contribute nothing to extraction. -/
theorem filterMap_parse_none (lines : List String)
    (h : ∀ l ∈ lines, parseLine l = none) :
    List.filterMap parseLine lines = [] := by
  induction lines with
  | nil => rfl
  | cons l ls ih =>
    rw [List.filterMap_cons_none (h l (by simp))]
    exact ih (fun x hx => h x (by simp [hx]))

/-- C1: for every well-formed list of time sources (types SERVER or POOL,
non-empty hostnames over the hostname character class, options drawn from
the recognized flag and argument option sets), parsing the text produced
by rendering that list over a passthrough-only (or empty) original source
yields a list equal to the input, with order, types, hostnames and option
sequences preserved. -/
theorem C1_round_trip (servers : List TimeSourceData)
    (hwf : ∀ s ∈ servers, wellFormed s = true)
    (oldLines : List String) (hold : ∀ l ∈ oldLines, matchesLine l = false) :
    get_servers_from_lines (save_servers_to_config servers oldLines) = servers := by
  unfold save_servers_to_config get_servers_from_lines
  rw [List.filterMap_append, List.filterMap_append]
  rw [List.filterMap_cons_none (by decide : parseLine heading = none)]
  rw [filterMap_parse_render servers hwf]
  rw [show List.filterMap parseLine [""] = [] from by decide]
  rw [filterMap_parse_none _ ?hnone]
  case hnone =>
    intro l hl
    have hp := (List.mem_filter.mp hl).2
    rw [Bool.and_eq_true] at hp
    have hm : matchesLine l = false := by
      rcases hp with ⟨h1, _⟩
      cases hml : matchesLine l with
      | false => rfl
      | true => rw [hml] at h1; simp at h1
    exact parseLine_none_of_not_matches l hm
  simp

/-- C1 witness: a concrete two-element round trip over a passthrough-only
source. -/
theorem C1_round_trip_witness :
    get_servers_from_lines (save_servers_to_config
      [⟨"SERVER", "ntp.example.com", ["iburst", "minpoll 4"]⟩,
       ⟨"POOL", "0.pool.ntp.org", []⟩]
      ["# a comment", "driftfile /var/lib/chrony/drift"]) =
      [⟨"SERVER", "ntp.example.com", ["iburst", "minpoll 4"]⟩,
       ⟨"POOL", "0.pool.ntp.org", []⟩] :=
  C1_round_trip _ (by decide) _ (by decide)

/-- C2 counterexample: the directive regex uses a starred whitespace class
between the type token and the hostname, so a line whose hostname
characters immediately follow the type token with no whitespace is still
recognized and extracted as a directive, contradicting the claim that it
would be a passthrough line. -/
theorem C2_counterexample :
    matchesLine "serverfoo" = true ∧
    parseLine "serverfoo" = some ⟨"SERVER", "foo", []⟩ := by decide

/-- The regex tail on a bare hostname word with nothing after it. -/
theorem regexTail_nospace (tok hd : List Char) (hne : hd ≠ [])
    (hh : ∀ c ∈ hd, isHostChar c = true) :
    regexTail tok hd = some (tok, hd, []) := by
  obtain ⟨c0, hd', rfl⟩ : ∃ c0 hd', hd = c0 :: hd' := by
    cases hd with
    | nil => exact absurd rfl hne
    | cons a t => exact ⟨a, t, rfl⟩
  have hc0s : isSpc c0 = false := hostChar_not_spc c0 (hh c0 (by simp))
  simp only [regexTail]
  rw [dropWhile_cons_false _ _ _ hc0s]
  rw [takeWhile_all _ _ hh, dropWhile_all _ _ hh]
  rw [if_neg (by simp)]
  rfl

/-- C2 amended: the grammar separator between the type token and the
hostname is a starred whitespace class, so zero whitespace is allowed: a
line consisting of the token `server` immediately followed by hostname
characters is recognized as a directive whose hostname is the run of
hostname characters after the token. -/
theorem C2_amended_no_whitespace (l hn : String)
    (hl : l.data = "server".data ++ hn.data)
    (h1 : hn.data ≠ []) (h2 : ∀ c ∈ hn.data, isHostChar c = true) :
    parseLine l = some ⟨"SERVER", hn, []⟩ ∧ matchesLine l = true := by
  have hdw : ("server".data ++ hn.data).dropWhile isSpc
      = "server".data ++ hn.data := by
    rw [show ("server".data ++ hn.data : List Char)
      = 's' :: ("erver".data ++ hn.data) from rfl]
    exact dropWhile_cons_false _ _ _ (by decide)
  have hm : regexMatchL l.data = some ("server".data, hn.data, []) := by
    rw [hl]
    unfold regexMatchL
    rw [hdw, regexTyped_server]
    exact regexTail_nospace _ _ h1 h2
  constructor
  · unfold parseLine
    rw [hm]
    rfl
  · unfold matchesLine
    rw [hm]
    rfl

/-- C2 amended witness: a concrete no-whitespace directive line. -/
theorem C2_amended_no_whitespace_witness :
    parseLine "servermyhost" = some ⟨"SERVER", "myhost", []⟩ ∧
    matchesLine "servermyhost" = true :=
  C2_amended_no_whitespace "servermyhost" "myhost" (by decide) (by decide) (by decide)

/-- C3: the lower-cased options region is consumed left to right: a flag
token is appended alone; an argument token followed by another token is
appended joined to it by one space with the argument consumed; any other
token, or a trailing argument token, is dropped; and the example line
parses to SERVER, ntp.example.com, [iburst, minpoll 4]. -/
theorem C3_option_consumption :
    (∀ (w : String) (ws : List String), w ∈ SRV_NOARG_OPTIONS →
      parseOptions (w :: ws) = w :: parseOptions ws)
  ∧ (∀ (w a : String) (ws : List String), w ∈ SRV_ARG_OPTIONS →
      parseOptions (w :: a :: ws) = (w ++ " " ++ a) :: parseOptions ws)
  ∧ (∀ (w : String) (ws : List String), w ∉ SRV_NOARG_OPTIONS →
      w ∉ SRV_ARG_OPTIONS → parseOptions (w :: ws) = parseOptions ws)
  ∧ (∀ (w : String), w ∈ SRV_ARG_OPTIONS → parseOptions [w] = [])
  ∧ parseLine "server ntp.example.com iburst minpoll 4 bogus" =
      some ⟨"SERVER", "ntp.example.com", ["iburst", "minpoll 4"]⟩ := by
  refine ⟨?_, ?_, ?_, ?_, by decide⟩
  · intro w ws h
    cases ws with
    | nil =>
      show (if w ∈ SRV_NOARG_OPTIONS then [w] else []) = w :: parseOptions []
      rw [if_pos h]
      rfl
    | cons a rest =>
      show (if w ∈ SRV_NOARG_OPTIONS then w :: parseOptions (a :: rest)
        else if w ∈ SRV_ARG_OPTIONS then (w ++ " " ++ a) :: parseOptions rest
        else parseOptions (a :: rest)) = w :: parseOptions (a :: rest)
      rw [if_pos h]
  · intro w a ws h
    have hnot : w ∉ SRV_NOARG_OPTIONS := (arg_props w h).2.2
    show (if w ∈ SRV_NOARG_OPTIONS then w :: parseOptions (a :: ws)
      else if w ∈ SRV_ARG_OPTIONS then (w ++ " " ++ a) :: parseOptions ws
      else parseOptions (a :: ws)) = (w ++ " " ++ a) :: parseOptions ws
    rw [if_neg hnot, if_pos h]
  · intro w ws h1 h2
    cases ws with
    | nil =>
      show (if w ∈ SRV_NOARG_OPTIONS then [w] else []) = parseOptions []
      rw [if_neg h1]
      rfl
    | cons a rest =>
      show (if w ∈ SRV_NOARG_OPTIONS then w :: parseOptions (a :: rest)
        else if w ∈ SRV_ARG_OPTIONS then (w ++ " " ++ a) :: parseOptions rest
        else parseOptions (a :: rest)) = parseOptions (a :: rest)
      rw [if_neg h1, if_neg h2]
  · intro w h
    have hnot : w ∉ SRV_NOARG_OPTIONS := (arg_props w h).2.2
    show (if w ∈ SRV_NOARG_OPTIONS then [w] else []) = []
    rw [if_neg hnot]

/-- C3 witness: the word list of the example options region, consumed
token by token through the theorem's clauses. -/
theorem C3_option_consumption_witness :
    parseOptions ["iburst", "minpoll", "4", "bogus"] = ["iburst", "minpoll 4"] := by
  rw [C3_option_consumption.1 "iburst" _ (by decide)]
  rw [C3_option_consumption.2.1 "minpoll" "4" _ (by decide)]
  rw [C3_option_consumption.2.2.1 "bogus" [] (by decide) (by decide)]
  decide

/-- A rendered directive line of an enum-typed server starts with a
lower-case type token, so it is never byte-equal to the heading comment. -/
theorem serverLine_ne_heading (s : TimeSourceData)
    (h : s.type = "SERVER" ∨ s.type = "POOL") : serverLine s ≠ heading := by
  intro hcontra
  have hd := congrArg String.data hcontra
  have hline : (serverLine s).data = s.type.data.map asciiLower ++
      ' ' :: joinSp (s.hostname.data :: s.options.map String.data) := rfl
  rw [hline] at hd
  rcases h with h | h
  · rw [h] at hd
    rw [show ("SERVER".data.map asciiLower : List Char)
      = 's' :: "erver".data from by decide] at hd
    rw [List.cons_append] at hd
    rw [show (heading.data : List Char)
      = '#' :: " These servers were defined in the installation:".data from rfl] at hd
    injection hd with h1 _
    exact absurd h1 (by decide)
  · rw [h] at hd
    rw [show ("POOL".data.map asciiLower : List Char)
      = 'p' :: "ool".data from by decide] at hd
    rw [List.cons_append] at hd
    rw [show (heading.data : List Char)
      = '#' :: " These servers were defined in the installation:".data from rfl] at hd
    injection hd with h1 _
    exact absurd h1 (by decide)

/-- The heading is never kept by the passthrough filter of the rewrite. -/
theorem heading_not_in_filter (r : List String) :
    heading ∉ r.filter (fun l => !matchesLine l && l != heading) := by
  intro hmem
  have hp := (List.mem_filter.mp hmem).2
  simp at hp

/-- C4: rendering twice in succession, feeding the first output to the
second render as its source, yields the same directive block (heading
plus one line per server), and the second output contains the heading
exactly once; servers carry the SERVER or POOL enum type of the data
model. -/
theorem C4_idempotent_rewrite (servers : List TimeSourceData)
    (htype : ∀ s ∈ servers, s.type = "SERVER" ∨ s.type = "POOL")
    (src : List String) :
    (save_servers_to_config servers (save_servers_to_config servers src)).take
        (1 + servers.length)
      = (save_servers_to_config servers src).take (1 + servers.length) ∧
    (save_servers_to_config servers
      (save_servers_to_config servers src)).count heading = 1 := by
  have hlen : (heading :: servers.map serverLine).length = 1 + servers.length := by
    simp only [List.length_cons, List.length_map]
    omega
  have h1 : heading ∉ servers.map serverLine := by
    intro hmem
    rcases List.mem_map.mp hmem with ⟨s, hs, heq⟩
    exact serverLine_ne_heading s (htype s hs) heq
  constructor
  · show ((heading :: servers.map serverLine ++ [""]) ++ _).take (1 + servers.length)
      = ((heading :: servers.map serverLine ++ [""]) ++ _).take (1 + servers.length)
    rw [List.append_assoc, List.append_assoc]
    rw [List.take_left' hlen, List.take_left' hlen]
  · show (((heading :: servers.map serverLine) ++ [""]) ++ _).count heading = 1
    rw [List.count_append, List.count_append, List.count_cons_self]
    rw [List.count_eq_zero.mpr h1]
    rw [show (([""] : List String).count heading) = 0 from by decide]
    rw [List.count_eq_zero.mpr (heading_not_in_filter _)]

/-- C4 witness: a concrete double render with one server over a one-line
source. -/
theorem C4_idempotent_rewrite_witness :
    (save_servers_to_config [⟨"SERVER", "a", []⟩]
        (save_servers_to_config [⟨"SERVER", "a", []⟩] ["x!"])).take 2
      = (save_servers_to_config [⟨"SERVER", "a", []⟩] ["x!"]).take 2 ∧
    (save_servers_to_config [⟨"SERVER", "a", []⟩]
      (save_servers_to_config [⟨"SERVER", "a", []⟩] ["x!"])).count heading = 1 :=
  C4_idempotent_rewrite [⟨"SERVER", "a", []⟩] (by decide) ["x!"]

/-- C8: every source line that is neither a directive match nor the
heading survives rendering verbatim, with multiplicity and relative order
preserved, as the contiguous block positioned right after the directive
block and the blank line; and for any such non-blank line the number of
occurrences in the output equals that in the source. -/
theorem C8_passthrough (servers : List TimeSourceData)
    (hwf : ∀ s ∈ servers, wellFormed s = true) (src : List String) :
    (save_servers_to_config servers src).drop (servers.length + 2)
      = src.filter (fun l => !matchesLine l && l != heading) ∧
    ∀ l : String, matchesLine l = false → l ≠ heading → l ≠ "" →
      (save_servers_to_config servers src).count l = src.count l := by
  constructor
  · show (((heading :: servers.map serverLine) ++ [""]) ++ _).drop (servers.length + 2)
      = _
    rw [List.drop_left' (by
      simp only [List.length_append, List.length_cons, List.length_map,
        List.length_nil])]
  · intro l hml hlh hlb
    show ((((heading :: servers.map serverLine) ++ [""]) ++ _).count l) = src.count l
    rw [List.count_append, List.count_append]
    have hcount1 : (heading :: servers.map serverLine).count l = 0 := by
      rw [List.count_eq_zero]
      intro hmem
      rcases List.mem_cons.mp hmem with rfl | hmem2
      · exact hlh rfl
      · rcases List.mem_map.mp hmem2 with ⟨s, hs, rfl⟩
        have hm := matchesLine_of_parseLine _ _ (parseLine_serverLine s (hwf s hs))
        rw [hm] at hml
        exact absurd hml (by simp)
    have hcount2 : ([""] : List String).count l = 0 := by
      rw [List.count_eq_zero]
      intro hmem
      exact hlb (List.mem_singleton.mp hmem)
    have hcount3 : (src.filter (fun l => !matchesLine l && l != heading)).count l
        = src.count l := by
      apply List.count_filter
      rw [hml]
      simp [bne_iff_ne, hlh]
    rw [hcount1, hcount2, hcount3]
    omega

/-- C8 witness: one well-formed server and a non-directive source line. -/
theorem C8_passthrough_witness :
    (save_servers_to_config [⟨"SERVER", "a", []⟩] ["keep me!"]).drop 3
      = ["keep me!"].filter (fun l => !matchesLine l && l != heading) ∧
    (save_servers_to_config [⟨"SERVER", "a", []⟩] ["keep me!"]).count "keep me!"
      = (["keep me!"] : List String).count "keep me!" :=
  ⟨(C8_passthrough [⟨"SERVER", "a", []⟩] (by decide) ["keep me!"]).1,
   (C8_passthrough [⟨"SERVER", "a", []⟩] (by decide) ["keep me!"]).2
     "keep me!" (by decide) (by decide) (by decide)⟩

/-- A rendered directive line contains a space, so it is never the blank
line. -/
theorem serverLine_ne_blank (s : TimeSourceData) : serverLine s ≠ "" := by
  intro h
  have hd := congrArg String.data h
  rw [show (serverLine s).data = s.type.data.map asciiLower ++
    ' ' :: joinSp (s.hostname.data :: s.options.map String.data) from rfl] at hd
  simp at hd

/-- Directive lines of well-formed servers are all removed by the
passthrough filter. -/
theorem filter_p_serverLines (servers : List TimeSourceData)
    (hwf : ∀ s ∈ servers, wellFormed s = true) :
    (servers.map serverLine).filter (fun l => !matchesLine l && l != heading)
      = [] := by
  induction servers with
  | nil => rfl
  | cons s ss ih =>
    rw [List.map_cons, List.filter_cons]
    have hm : matchesLine (serverLine s) = true :=
      matchesLine_of_parseLine _ _ (parseLine_serverLine s (hwf s (by simp)))
    rw [if_neg (by simp [hm])]
    exact ih (fun x hx => hwf x (by simp [hx]))

/-- Blank lines all pass the passthrough filter. -/
theorem filter_p_replicate (n : Nat) :
    (List.replicate n "").filter (fun l => !matchesLine l && l != heading)
      = List.replicate n "" := by
  induction n with
  | zero => rfl
  | succ k ih =>
    rw [List.replicate_succ, List.filter_cons, if_pos (by decide), ih]

/-- Filtering twice with the same predicate filters once. -/
theorem filter_idem' {α : Type} (p : α → Bool) (l : List α) :
    (l.filter p).filter p = l.filter p := by
  induction l with
  | nil => rfl
  | cons a t ih =>
    rw [List.filter_cons]
    cases hpa : p a with
    | true =>
      rw [if_pos rfl, List.filter_cons, if_pos hpa, ih]
    | false =>
      rw [if_neg (by simp), ih]

/-- Closed form of the iterated rewrite: after n renders (n at least 1)
the output is the directive block, n accumulated blank lines, and the
filtered source. -/
theorem renderIter_closed_form (servers : List TimeSourceData)
    (hwf : ∀ s ∈ servers, wellFormed s = true) (src : List String) :
    ∀ n : Nat, 1 ≤ n →
    renderIter servers src n =
      (heading :: servers.map serverLine) ++ List.replicate n "" ++
        src.filter (fun l => !matchesLine l && l != heading) := by
  intro n hn
  induction n, hn using Nat.le_induction with
  | base => rfl
  | succ n hn ih =>
    show save_servers_to_config servers (renderIter servers src n) = _
    rw [ih]
    unfold save_servers_to_config
    rw [List.filter_append, List.filter_append]
    rw [List.filter_cons, if_neg (by decide)]
    rw [filter_p_serverLines servers hwf, filter_p_replicate n, filter_idem']
    simp [List.append_assoc, List.replicate_succ]

/-- C10: each render appends one blank line after the directive block; a
blank line is neither a directive match nor the heading, so it survives
every later render: n successive renders over a blank-line-free source
leave exactly n blank lines between the directive block and the filtered
passthrough lines, and each further render grows the output by one
line. -/
theorem C10_blank_line_growth (servers : List TimeSourceData)
    (hwf : ∀ s ∈ servers, wellFormed s = true)
    (src : List String) (hsrc : ∀ l ∈ src, l ≠ "")
    (n : Nat) (hn : 1 ≤ n) :
    matchesLine "" = false ∧ "" ≠ heading ∧
    renderIter servers src n =
      (heading :: servers.map serverLine) ++ List.replicate n "" ++
        src.filter (fun l => !matchesLine l && l != heading) ∧
    (renderIter servers src n).count "" = n ∧
    (renderIter servers src (n + 1)).length
      = (renderIter servers src n).length + 1 := by
  refine ⟨by decide, by decide, renderIter_closed_form servers hwf src n hn, ?_, ?_⟩
  · rw [renderIter_closed_form servers hwf src n hn]
    rw [List.count_append, List.count_append]
    rw [List.count_cons_of_ne (by decide : ("" : String) ≠ heading)]
    rw [List.count_eq_zero.mpr ?hmap, List.count_replicate_self,
      List.count_eq_zero.mpr ?hflt]
    case hmap =>
      intro hmem
      rcases List.mem_map.mp hmem with ⟨s, _, heq⟩
      exact serverLine_ne_blank s heq
    case hflt =>
      intro hmem
      exact hsrc _ (List.mem_filter.mp hmem).1 rfl
    omega
  · rw [renderIter_closed_form servers hwf src (n + 1) (by omega),
      renderIter_closed_form servers hwf src n hn]
    simp only [List.length_append, List.length_cons, List.length_map,
      List.length_replicate]
    omega

/-- C10 witness: one server, a one-line blank-free source, one render and
the render after it. -/
theorem C10_blank_line_growth_witness :
    matchesLine "" = false ∧ "" ≠ heading ∧
    renderIter [⟨"SERVER", "a", []⟩] ["x!"] 1 =
      (heading :: [⟨"SERVER", "a", ([] : List String)⟩].map serverLine) ++
        List.replicate 1 "" ++
        ["x!"].filter (fun l => !matchesLine l && l != heading) ∧
    (renderIter [⟨"SERVER", "a", []⟩] ["x!"] 1).count "" = 1 ∧
    (renderIter [⟨"SERVER", "a", []⟩] ["x!"] 2).length
      = (renderIter [⟨"SERVER", "a", []⟩] ["x!"] 1).length + 1 :=
  C10_blank_line_growth [⟨"SERVER", "a", []⟩] (by decide) ["x!"] (by decide) 1
    (by decide)

/-- C5: the synchronous one-time sync performs exactly one time-protocol
request; on a response it sets the clock to the truncated transmit
timestamp and returns true; on protocol or name-resolution failure it
returns false with no clock-set call; and a supplied callback runs
exactly once with the boolean outcome, after any clock-set event. -/
theorem C5_one_time_sync (server : TimeSourceData) (cb : Bool)
    (resp : NTPResponse) :
    ((_one_time_sync server cb resp).2.filter isRequestEv).length = 1
  ∧ (∀ tx : ℚ, resp = NTPResponse.ok tx →
      (_one_time_sync server cb resp).1 = true ∧
      (_one_time_sync server cb resp).2.filter isSetTimeEv
        = [SyncEvent.setSystemTime (pyInt tx)])
  ∧ (resp = NTPResponse.ntpException ∨ resp = NTPResponse.gaierror →
      (_one_time_sync server cb resp).1 = false ∧
      (_one_time_sync server cb resp).2.filter isSetTimeEv = [])
  ∧ (cb = true →
      (_one_time_sync server cb resp).2.filter isCallbackEv
        = [SyncEvent.callback ((_one_time_sync server cb resp).1)]
      ∧ ∃ pre, (_one_time_sync server cb resp).2
          = pre ++ [SyncEvent.callback ((_one_time_sync server cb resp).1)]
        ∧ pre.filter isCallbackEv = [])
  ∧ (cb = false → (_one_time_sync server cb resp).2.filter isCallbackEv = []) := by
  refine ⟨?_, ?_, ?_, ?_, ?_⟩
  · rcases resp with tx | _ | _ <;> cases cb <;>
      simp [_one_time_sync, isRequestEv, isSetTimeEv, isCallbackEv]
  · intro tx heq
    subst heq
    cases cb <;> simp [_one_time_sync, isRequestEv, isSetTimeEv, isCallbackEv]
  · intro h
    rcases h with rfl | rfl <;> cases cb <;>
      simp [_one_time_sync, isRequestEv, isSetTimeEv, isCallbackEv]
  · intro hcb
    subst hcb
    rcases resp with tx | _ | _
    · exact ⟨by simp [_one_time_sync, isCallbackEv],
        ⟨[SyncEvent.request server.hostname, SyncEvent.setSystemTime (pyInt tx)],
          by simp [_one_time_sync], by simp [isCallbackEv]⟩⟩
    · exact ⟨by simp [_one_time_sync, isCallbackEv],
        ⟨[SyncEvent.request server.hostname],
          by simp [_one_time_sync], by simp [isCallbackEv]⟩⟩
    · exact ⟨by simp [_one_time_sync, isCallbackEv],
        ⟨[SyncEvent.request server.hostname],
          by simp [_one_time_sync], by simp [isCallbackEv]⟩⟩
  · intro hcb
    subst hcb
    rcases resp with tx | _ | _ <;> simp [_one_time_sync, isCallbackEv]

/-- C5 witness: a successful sync with a callback at a concrete server. -/
theorem C5_one_time_sync_witness :
    ((_one_time_sync ⟨"SERVER", "x", []⟩ true (NTPResponse.ok 5)).2.filter
      isRequestEv).length = 1 ∧
    (_one_time_sync ⟨"SERVER", "x", []⟩ true (NTPResponse.ok 5)).1 = true ∧
    (_one_time_sync ⟨"SERVER", "x", []⟩ true (NTPResponse.ok 5)).2.filter
      isCallbackEv
      = [SyncEvent.callback
          ((_one_time_sync ⟨"SERVER", "x", []⟩ true (NTPResponse.ok 5)).1)] :=
  ⟨(C5_one_time_sync ⟨"SERVER", "x", []⟩ true (NTPResponse.ok 5)).1,
   ((C5_one_time_sync ⟨"SERVER", "x", []⟩ true (NTPResponse.ok 5)).2.1 5 rfl).1,
   ((C5_one_time_sync ⟨"SERVER", "x", []⟩ true (NTPResponse.ok 5)).2.2.2.1 rfl).1⟩

/-- Reading a key just written to the status dictionary returns the
written value. -/
theorem dictGet_dictSet_same (m : List (String × NTPServerStatus)) (k : String)
    (v : NTPServerStatus) (d : NTPServerStatus) :
    dictGet (dictSet m k v) k d = v := by
  unfold dictGet dictSet
  rw [List.find?_cons_of_pos _ (by simp)]

/-- The search for a different key ignores entries removed by the update. -/
theorem find?_filter_ne (m : List (String × NTPServerStatus)) (k k2 : String)
    (h : k2 ≠ k) :
    (m.filter (fun p => !(p.1 == k))).find? (fun p => p.1 == k2)
      = m.find? (fun p => p.1 == k2) := by
  induction m with
  | nil => rfl
  | cons a t ih =>
    by_cases hak : a.1 = k
    · rw [List.filter_cons, if_neg (by simp [hak])]
      rw [List.find?_cons_of_neg _ (by
        simp only [beq_iff_eq, hak]
        exact fun hh => h hh.symm)]
      exact ih
    · rw [List.filter_cons, if_pos (by simp [hak])]
      by_cases hak2 : a.1 = k2
      · rw [List.find?_cons_of_pos _ (by simp [hak2]),
          List.find?_cons_of_pos _ (by simp [hak2])]
      · rw [List.find?_cons_of_neg _ (by simp [hak2]),
          List.find?_cons_of_neg _ (by simp [hak2])]
        exact ih

/-- Writing one key leaves every other key's read unchanged. -/
theorem dictGet_dictSet_other (m : List (String × NTPServerStatus))
    (k k2 : String) (v : NTPServerStatus) (d : NTPServerStatus) (h : k2 ≠ k) :
    dictGet (dictSet m k v) k2 d = dictGet m k2 d := by
  unfold dictGet dictSet
  rw [List.find?_cons_of_neg _ (by
    simp only [beq_iff_eq]
    exact fun hh => h hh.symm)]
  rw [find?_filter_ne m k k2 h]

/-- C6: the status store starts empty, get_status is a pure read
defaulting to the query state for never-checked hostnames (no write, no
spawned probe), check_status synchronously resets the hostname to the
query state and spawns exactly one probe carrying the hostname and the
NTS flag, and the probe completion stores the reachable state on success
and the unreachable state otherwise, touching no other hostname. -/
theorem C6_status_cache :
    (∀ server : TimeSourceData,
      NTPServerStatusCache.init.get_status server
        = (NTPServerStatus.NTP_SERVER_QUERY, NTPServerStatusCache.init, []))
  ∧ (∀ (c : NTPServerStatusCache) (server : TimeSourceData),
      (c.get_status server).2.1 = c ∧ (c.get_status server).2.2 = [])
  ∧ (∀ (c : NTPServerStatusCache) (server : TimeSourceData),
      c._cache.find? (fun p => p.1 == server.hostname) = none →
      (c.get_status server).1 = NTPServerStatus.NTP_SERVER_QUERY)
  ∧ (∀ (c : NTPServerStatusCache) (server : TimeSourceData) (d : NTPServerStatus),
      dictGet (c.check_status server).1._cache server.hostname d
        = NTPServerStatus.NTP_SERVER_QUERY ∧
      (c.check_status server).2
        = [⟨server.hostname, decide ("nts" ∈ server.options)⟩])
  ∧ (∀ (c : NTPServerStatusCache) (h : String) (r : Bool) (d : NTPServerStatus),
      dictGet (c._check_status h r)._cache h d
        = (if r then NTPServerStatus.NTP_SERVER_OK
           else NTPServerStatus.NTP_SERVER_NOK))
  ∧ (∀ (c : NTPServerStatusCache) (h h2 : String) (r : Bool)
      (d : NTPServerStatus), h2 ≠ h →
      dictGet (c._check_status h r)._cache h2 d = dictGet c._cache h2 d) := by
  refine ⟨?_, ?_, ?_, ?_, ?_, ?_⟩
  · intro server; rfl
  · intro c server; exact ⟨rfl, rfl⟩
  · intro c server hf
    show dictGet c._cache server.hostname NTPServerStatus.NTP_SERVER_QUERY
      = NTPServerStatus.NTP_SERVER_QUERY
    unfold dictGet
    rw [hf]
  · intro c server d
    exact ⟨dictGet_dictSet_same c._cache server.hostname
      NTPServerStatus.NTP_SERVER_QUERY d, rfl⟩
  · intro c h r d
    cases r
    · exact dictGet_dictSet_same c._cache h NTPServerStatus.NTP_SERVER_NOK d
    · exact dictGet_dictSet_same c._cache h NTPServerStatus.NTP_SERVER_OK d
  · intro c h h2 r d hne
    cases r
    · exact dictGet_dictSet_other c._cache h h2 NTPServerStatus.NTP_SERVER_NOK d hne
    · exact dictGet_dictSet_other c._cache h h2 NTPServerStatus.NTP_SERVER_OK d hne

/-- C6 witness: concrete reads and transitions on the fresh cache. -/
theorem C6_status_cache_witness :
    (NTPServerStatusCache.init.get_status ⟨"SERVER", "h1", []⟩).1
      = NTPServerStatus.NTP_SERVER_QUERY ∧
    dictGet ((NTPServerStatusCache.init.check_status ⟨"SERVER", "h1", []⟩).1)._cache
      "h1" NTPServerStatus.NTP_SERVER_NOK = NTPServerStatus.NTP_SERVER_QUERY ∧
    dictGet (NTPServerStatusCache.init._check_status "h1" true)._cache "h1"
      NTPServerStatus.NTP_SERVER_QUERY = NTPServerStatus.NTP_SERVER_OK ∧
    dictGet (NTPServerStatusCache.init._check_status "h1" false)._cache "h2"
      NTPServerStatus.NTP_SERVER_QUERY = NTPServerStatus.NTP_SERVER_QUERY :=
  ⟨C6_status_cache.2.2.1 NTPServerStatusCache.init ⟨"SERVER", "h1", []⟩ rfl,
   (C6_status_cache.2.2.2.1 NTPServerStatusCache.init ⟨"SERVER", "h1", []⟩
     NTPServerStatus.NTP_SERVER_NOK).1,
   C6_status_cache.2.2.2.2.1 NTPServerStatusCache.init "h1" true
     NTPServerStatus.NTP_SERVER_QUERY,
   C6_status_cache.2.2.2.2.2 NTPServerStatusCache.init "h1" "h2" false
     NTPServerStatus.NTP_SERVER_QUERY (by decide)⟩

/-- C7: the asynchronous sync derives its task name deterministically from
the fixed stem and the hostname; a call finding that name registered
returns silently with no new task; a call not finding it registers the
name and starts one task; and two back-to-back calls for the same
hostname (the second while the first is registered) start exactly one
task and, run on a successful response, make exactly one clock-set
call. -/
theorem C7_sync_async_dedup :
    (∀ (running : List String) (server : TimeSourceData) (cb : Bool),
      (THREAD_SYNC_TIME_BASENAME ++ "_" ++ server.hostname) ∈ running →
      one_time_sync_async running server cb = (running, []))
  ∧ (∀ (running : List String) (server : TimeSourceData) (cb : Bool),
      (THREAD_SYNC_TIME_BASENAME ++ "_" ++ server.hostname) ∉ running →
      one_time_sync_async running server cb
        = ((THREAD_SYNC_TIME_BASENAME ++ "_" ++ server.hostname) :: running,
           [⟨THREAD_SYNC_TIME_BASENAME ++ "_" ++ server.hostname, server, cb⟩]))
  ∧ (∀ (running : List String) (server : TimeSourceData) (cb : Bool) (tx : ℚ),
      (THREAD_SYNC_TIME_BASENAME ++ "_" ++ server.hostname) ∉ running →
      (one_time_sync_async
          (one_time_sync_async running server cb).1 server cb).2 = [] ∧
      (((one_time_sync_async running server cb).2 ++
          (one_time_sync_async
            (one_time_sync_async running server cb).1 server cb).2).map
        (fun tk => ((_one_time_sync tk.server tk.has_callback
          (NTPResponse.ok tx)).2.filter isSetTimeEv).length)).sum = 1) := by
  refine ⟨?_, ?_, ?_⟩
  · intro running server cb h
    simp only [one_time_sync_async]
    rw [if_pos h]
  · intro running server cb h
    simp only [one_time_sync_async]
    rw [if_neg h]
  · intro running server cb tx h
    simp only [one_time_sync_async]
    rw [if_neg h]
    rw [if_pos (List.mem_cons_self _ _)]
    refine ⟨rfl, ?_⟩
    cases cb <;> simp [_one_time_sync, isSetTimeEv]

/-- C7 witness: two calls for the same hostname over an initially empty
registry. -/
theorem C7_sync_async_dedup_witness :
    one_time_sync_async [] ⟨"SERVER", "a", []⟩ false
      = ([THREAD_SYNC_TIME_BASENAME ++ "_" ++ "a"],
         [⟨THREAD_SYNC_TIME_BASENAME ++ "_" ++ "a", ⟨"SERVER", "a", []⟩, false⟩]) ∧
    (one_time_sync_async (one_time_sync_async [] ⟨"SERVER", "a", []⟩ false).1
      ⟨"SERVER", "a", []⟩ false).2 = [] ∧
    (((one_time_sync_async [] ⟨"SERVER", "a", []⟩ false).2 ++
        (one_time_sync_async (one_time_sync_async [] ⟨"SERVER", "a", []⟩ false).1
          ⟨"SERVER", "a", []⟩ false).2).map
      (fun tk => ((_one_time_sync tk.server tk.has_callback
        (NTPResponse.ok 0)).2.filter isSetTimeEv).length)).sum = 1 :=
  ⟨C7_sync_async_dedup.2.1 [] ⟨"SERVER", "a", []⟩ false (by simp),
   (C7_sync_async_dedup.2.2 [] ⟨"SERVER", "a", []⟩ false 0 (by simp)).1,
   (C7_sync_async_dedup.2.2 [] ⟨"SERVER", "a", []⟩ false 0 (by simp)).2⟩

/-- C9: parsing raises the config-read error, carrying the offending path
and the underlying I/O reason, exactly when the source cannot be opened
or read, and then returns no partial list; a readable file never fails,
whatever malformed lines it contains, and yields the full extracted
list. -/
theorem C9_config_read_error (conf_file_path : String)
    (contents : Except String (List String)) :
    (∀ e : String, contents = .error e →
      get_servers_from_config conf_file_path contents
        = .error ("Cannot open config file " ++ conf_file_path ++
            " for reading (" ++ e ++ ")."))
  ∧ (∀ lines : List String, contents = .ok lines →
      get_servers_from_config conf_file_path contents
        = .ok (get_servers_from_lines lines))
  ∧ ((∃ msg, get_servers_from_config conf_file_path contents = .error msg) ↔
      ∃ e, contents = .error e) := by
  refine ⟨?_, ?_, ?_, ?_⟩
  · intro e heq
    subst heq
    rfl
  · intro lines heq
    subst heq
    rfl
  · rintro ⟨msg, hm⟩
    cases contents with
    | error e => exact ⟨e, rfl⟩
    | ok lines => exact absurd hm (by simp [get_servers_from_config])
  · rintro ⟨e, rfl⟩
    exact ⟨_, rfl⟩

/-- C9 witness: a failed read carrying path and reason, and a readable
file with one malformed line. -/
theorem C9_config_read_error_witness :
    get_servers_from_config "/etc/chrony.conf"
        (Except.error "No such file or directory")
      = Except.error ("Cannot open config file " ++ "/etc/chrony.conf" ++
          " for reading (" ++ "No such file or directory" ++ ").") ∧
    get_servers_from_config "/etc/chrony.conf"
        (Except.ok ["server ntp.example.com iburst", "bogus line!"])
      = Except.ok (get_servers_from_lines
          ["server ntp.example.com iburst", "bogus line!"]) :=
  ⟨(C9_config_read_error "/etc/chrony.conf"
      (Except.error "No such file or directory")).1 "No such file or directory" rfl,
   (C9_config_read_error "/etc/chrony.conf"
      (Except.ok ["server ntp.example.com iburst", "bogus line!"])).2.1 _ rfl⟩
